import Mathlib

/-!
# Verification of `data-uri-utils` (src/lib.rs)

Shallow embedding of the Rust crate `data-uri-utils`, which converts SVG
markup and raster images into `data:` URI strings.

Strings are modelled as `List Char` (Rust `str` is a sequence of Unicode
scalar values); where the Rust code manipulates the underlying UTF-8 bytes
(string slicing, percent-encoding), the byte level is made explicit through
`utf8EncodeNat`.  Panics are modelled by `Option` (`none` = panic), encoder
failures by `Except`.
-/

set_option maxRecDepth 10000

namespace DataUriUtils

/-- The Unicode `White_Space` code points, i.e. the characters for which
Rust's `char::is_whitespace` returns true; this is also the set matched by
the (Unicode-aware) regex class `\s` used in `WHITESPACES_REGEX = \s+`
(src/lib.rs line 8). -/
def isWhitespace (c : Char) : Bool :=
  let n := c.toNat
  n == 0x09 || n == 0x0A || n == 0x0B || n == 0x0C || n == 0x0D ||
  n == 0x20 || n == 0x85 || n == 0xA0 || n == 0x1680 ||
  (0x2000 ≤ n && n ≤ 0x200A) ||
  n == 0x2028 || n == 0x2029 || n == 0x202F || n == 0x205F || n == 0x3000

/-- UTF-8 encoding of a Unicode scalar value given as a `Nat`
(the byte sequence Rust stores for one `char`). -/
def utf8EncodeNat (n : Nat) : List Nat :=
  if n < 0x80 then [n]
  else if n < 0x800 then [0xC0 + n / 64, 0x80 + n % 64]
  else if n < 0x10000 then [0xE0 + n / 4096, 0x80 + n / 64 % 64, 0x80 + n % 64]
  else [0xF0 + n / 262144, 0x80 + n / 4096 % 64, 0x80 + n / 64 % 64, 0x80 + n % 64]

/-- UTF-8 byte length of one character (Rust `char::len_utf8`). -/
def utf8Len (c : Char) : Nat := (utf8EncodeNat c.toNat).length

/-- Rust byte slicing `&string[k..]` on a `str`: drops the first `k` bytes of
the UTF-8 buffer, but panics (`none`) when `k` is not a character boundary or
exceeds the length.  src/lib.rs line 14 relies on this operation. -/
def dropUtf8Bytes (k : Nat) (s : List Char) : Option (List Char) :=
  if k = 0 then some s
  else
    match s with
    | [] => none
    | c :: rest =>
      if utf8Len c ≤ k then dropUtf8Bytes (k - utf8Len c) rest else none

/-- `SvgDataUriUtils::trim_byte_order_mark` (src/lib.rs lines 11-17):

    match string.chars().next() {
        Some('\u{FEFF}') => &string[1..],
        _ => string,
    }

When the first character is U+FEFF the code slices the UTF-8 buffer at byte
index 1; since U+FEFF occupies three bytes, this is never a character
boundary, so the slice panics — modelled by `dropUtf8Bytes 1`. -/
def trim_byte_order_mark (s : List Char) : Option (List Char) :=
  match s with
  | c :: _ => if c = Char.ofNat 0xFEFF then dropUtf8Bytes 1 s else some s
  | [] => some s

/-- Rust `str::trim`: remove leading and trailing Unicode whitespace
(src/lib.rs line 35). -/
def trimRust (s : List Char) : List Char :=
  ((s.dropWhile isWhitespace).reverse.dropWhile isWhitespace).reverse

/-- Worker for `collapse_whitespace`: scans left to right, the flag records
whether the scanner is inside a whitespace run whose single replacement
space has already been emitted.  This computes exactly
`Regex::new(r"\s+").replace_all(s, " ")`: every maximal run of `\s`
characters is replaced by one ASCII space. -/
def collapseAux : Bool → List Char → List Char
  | _, [] => []
  | inRun, c :: rest =>
    if isWhitespace c then
      if inRun then collapseAux true rest
      else ' ' :: collapseAux true rest
    else c :: collapseAux false rest

/-- `SvgDataUriUtils::collapse_whitespace` (src/lib.rs lines 19-21):
`WHITESPACES_REGEX.replace_all(self.as_ref(), " ")`. -/
def collapse_whitespace (s : List Char) : List Char := collapseAux false s

/-- Byte membership in the `percent_encoding::NON_ALPHANUMERIC` set's
complement: the ASCII alphanumeric bytes `[0-9A-Za-z]`, the only bytes the
encoder leaves raw. -/
def isAlnumByte (b : Nat) : Bool :=
  (0x30 ≤ b && b ≤ 0x39) || (0x41 ≤ b && b ≤ 0x5A) || (0x61 ≤ b && b ≤ 0x7A)

/-- Uppercase hexadecimal digit, as produced by the `percent_encoding`
crate's escape formatting. -/
def hexDigitUpper (n : Nat) : Char :=
  "0123456789ABCDEF".toList.getD n '0'

/-- Percent-escape of one byte: `%` followed by two uppercase hex digits. -/
def percentEncodeByte (b : Nat) : List Char :=
  ['%', hexDigitUpper (b / 16), hexDigitUpper (b % 16)]

/-- `SvgDataUriUtils::encode_uri_components` (src/lib.rs lines 23-26):
`utf8_percent_encode(string, NON_ALPHANUMERIC).collect()`.  The crate walks
the UTF-8 bytes of the string and emits each ASCII alphanumeric byte raw and
every other byte as an uppercase `%XX` escape. -/
def encode_uri_components (s : List Char) : List Char :=
  (s.flatMap fun c => utf8EncodeNat c.toNat).flatMap fun b =>
    if isAlnumByte b then [Char.ofNat b] else percentEncodeByte b

/-- `svg_str_to_data_uri` (src/lib.rs lines 31-39): BOM strip (which may
panic), `str::trim`, whitespace collapsing, percent-encoding, then the
literal `data:image/svg+xml,` header. -/
def svg_str_to_data_uri (svg : List Char) : Option (List Char) :=
  (trim_byte_order_mark svg).map fun t =>
    "data:image/svg+xml,".toList ++
      encode_uri_components (collapse_whitespace (trimRust t))

/-! ## Base64 and the raster-image wrappers (src/lib.rs lines 41-82)

The PNG/JPEG codecs (`image` crate) and the base64 encoder (`base64` crate)
are external libraries, not code of this repository; the codecs are taken as
abstract parameters, and base64 is modelled from the spec. -/

/-- Modelled from the spec: the standard base64 alphabet used by
`base64::encode` (the `base64` crate is external to the repository). -/
def b64Alphabet : List Char :=
  "ABCDEFGHIJKLMNOPQRSTUVWXYZabcdefghijklmnopqrstuvwxyz0123456789+/".toList

/-- Character for a 6-bit group (values ≥ 64 never occur on valid input). -/
def b64Char (n : Nat) : Char := b64Alphabet.getD n '='

/-- Modelled from the spec: `base64::encode` — standard alphabet, `=`
padding, no line wraps; the `base64` crate is external to the repository.
Bytes are taken three at a time and emitted as four 6-bit groups. -/
def base64Encode : List Nat → List Char
  | [] => []
  | [b1] => [b64Char (b1 / 4), b64Char (b1 % 4 * 16), '=', '=']
  | [b1, b2] =>
    [b64Char (b1 / 4), b64Char (b1 % 4 * 16 + b2 / 16), b64Char (b2 % 16 * 4), '=']
  | b1 :: b2 :: b3 :: rest =>
    b64Char (b1 / 4) :: b64Char (b1 % 4 * 16 + b2 / 16) ::
      b64Char (b2 % 16 * 4 + b3 / 64) :: b64Char (b3 % 64) :: base64Encode rest

/-- Index of a character in the base64 alphabet (64 when absent). -/
def b64Val (c : Char) : Nat := b64Alphabet.indexOf c

/-- Modelled from the spec: a standard base64 decoder (padding-aware),
used only to state that the base64 wrapping stage is lossless. -/
def base64Decode : List Char → List Nat
  | c1 :: c2 :: c3 :: c4 :: rest =>
    if c3 = '=' then [b64Val c1 * 4 + b64Val c2 / 16]
    else if c4 = '=' then
      [b64Val c1 * 4 + b64Val c2 / 16, b64Val c2 % 16 * 16 + b64Val c3 / 4]
    else
      (b64Val c1 * 4 + b64Val c2 / 16) ::
        (b64Val c2 % 16 * 16 + b64Val c3 / 4) ::
        (b64Val c3 % 4 * 64 + b64Val c4) :: base64Decode rest
  | _ => []

/-- The data a `GenericImageView + EncodableLayout` value exposes to the two
raster functions: width, height, raw bytes, and the pixel type's color-type
tag. -/
structure ImageBuf where
  width : Nat
  height : Nat
  bytes : List Nat
  colorTag : Nat

/-- `image_to_png_data_uri` (src/lib.rs lines 41-63).  The PNG codec
(`image::codecs::png::PngEncoder`, external to the repository) is an
abstract parameter returning the bytes it writes into `buffer`, or an
error; `?` propagates the error, otherwise the parts
`"data:"`, `mime::IMAGE_PNG` (= `"image/png"`), `";base64,"` and
`base64::encode(&buffer)` are concatenated. -/
def image_to_png_data_uri {ε : Type} (pngEncode : ImageBuf → Except ε (List Nat))
    (img : ImageBuf) : Except ε (List Char) :=
  match pngEncode img with
  | .error e => .error e
  | .ok buffer =>
    .ok ("data:".toList ++ "image/png".toList ++ ";base64,".toList ++
      base64Encode buffer)

/-- `image_to_jpeg_data_uri` (src/lib.rs lines 65-82).  The JPEG codec
(`image::codecs::jpeg::JpegEncoder::new_with_quality`, external to the
repository) is an abstract parameter taking the quality and the image. -/
def image_to_jpeg_data_uri {ε : Type}
    (jpegEncode : Nat → ImageBuf → Except ε (List Nat))
    (img : ImageBuf) (quality : Nat) : Except ε (List Char) :=
  match jpegEncode quality img with
  | .error e => .error e
  | .ok buffer =>
    .ok ("data:".toList ++ "image/jpeg".toList ++ ";base64,".toList ++
      base64Encode buffer)

/-! ## Spec-side definitions used to state the claims -/

/-- ASCII letters and digits, as the spec's `[A-Za-z0-9]`. -/
def isAsciiAlphanumeric (c : Char) : Bool :=
  (0x41 ≤ c.toNat && c.toNat ≤ 0x5A) || (0x61 ≤ c.toNat && c.toNat ≤ 0x7A) ||
    (0x30 ≤ c.toNat && c.toNat ≤ 0x39)

/-- Uppercase hexadecimal digit characters `[0-9A-F]`. -/
def isUpperHexDigit (c : Char) : Bool :=
  (0x30 ≤ c.toNat && c.toNat ≤ 0x39) || (0x41 ≤ c.toNat && c.toNat ≤ 0x46)

mutual

/-- Grammar of the URI payload claimed for the SVG output: a sequence of
ASCII alphanumerics and `%XX` escapes with uppercase hex digits.
`hexTail` checks the two uppercase hex digits after a `%`. -/
def uriPayloadOk : List Char → Bool
  | [] => true
  | c :: rest =>
    if c = '%' then hexTail rest
    else isAsciiAlphanumeric c && uriPayloadOk rest

/-- The two uppercase hex digits expected after a `%`, then more payload. -/
def hexTail : List Char → Bool
  | h1 :: h2 :: rest => isUpperHexDigit h1 && isUpperHexDigit h2 && uriPayloadOk rest
  | _ => false

end

/-- Head of a string is not whitespace (vacuously true for the empty
string). -/
def headNotWs : List Char → Bool
  | [] => true
  | d :: _ => !isWhitespace d

/-- A string is in collapsed form: every whitespace character in it is an
ASCII space that is not followed by further whitespace. -/
def collapsedB : List Char → Bool
  | [] => true
  | c :: rest =>
    (!isWhitespace c || (c == ' ' && headNotWs rest)) && collapsedB rest

/-- The reference input of the repository's `full_test`, as quoted by the
spec's round-trip scenario. -/
def refInput : String :=
  "\n <svg xmlns=\"http://www.w3.org/2000/svg\" viewBox=\"0 0 50 50\">\n <path d=\"M22 38V51L32 32l19-19v12C44 26 43 10 38 0 52 15 49 39 22 38z\"/>\n </svg>"

/-- The reference output the spec requires for `refInput`. -/
def refOutput : String :=
  "data:image/svg+xml,%3Csvg%20xmlns%3D%22http%3A%2F%2Fwww%2Ew3%2Eorg%2F2000%2Fsvg%22%20viewBox%3D%220%200%2050%2050%22%3E%20%3Cpath%20d%3D%22M22%2038V51L32%2032l19%2D19v12C44%2026%2043%2010%2038%200%2052%2015%2049%2039%2022%2038z%22%2F%3E%20%3C%2Fsvg%3E"

/-! ## Helper lemmas about base64 -/

theorem b64Val_b64Char : ∀ v : Fin 64, b64Val (b64Char v.val) = v.val := by decide

theorem b64Char_ne_pad : ∀ v : Fin 64, b64Char v.val ≠ '=' := by decide

theorem base64_decode_encode (bs : List Nat) (hb : ∀ b ∈ bs, b < 256) :
    base64Decode (base64Encode bs) = bs := by
  induction bs using base64Encode.induct with
  | case1 => rfl
  | case2 b1 =>
    have h1 : b1 < 256 := hb b1 (by simp)
    have e1 : b64Val (b64Char (b1 / 4)) = b1 / 4 := b64Val_b64Char ⟨b1 / 4, by omega⟩
    have e2 : b64Val (b64Char (b1 % 4 * 16)) = b1 % 4 * 16 :=
      b64Val_b64Char ⟨b1 % 4 * 16, by omega⟩
    simp only [base64Encode, base64Decode]
    simp only [if_true]
    simp only [e1, e2, List.cons.injEq, and_true]
    omega
  | case3 b1 b2 =>
    have h1 : b1 < 256 := hb b1 (by simp)
    have h2 : b2 < 256 := hb b2 (by simp)
    have e1 : b64Val (b64Char (b1 / 4)) = b1 / 4 := b64Val_b64Char ⟨b1 / 4, by omega⟩
    have e2 : b64Val (b64Char (b1 % 4 * 16 + b2 / 16)) = b1 % 4 * 16 + b2 / 16 :=
      b64Val_b64Char ⟨b1 % 4 * 16 + b2 / 16, by omega⟩
    have e3 : b64Val (b64Char (b2 % 16 * 4)) = b2 % 16 * 4 :=
      b64Val_b64Char ⟨b2 % 16 * 4, by omega⟩
    have n3 : b64Char (b2 % 16 * 4) ≠ '=' := b64Char_ne_pad ⟨b2 % 16 * 4, by omega⟩
    simp only [base64Encode, base64Decode, if_neg n3]
    simp only [if_true]
    simp only [e1, e2, e3, List.cons.injEq, and_true]
    omega
  | case4 b1 b2 b3 rest ih =>
    have h1 : b1 < 256 := hb b1 (by simp)
    have h2 : b2 < 256 := hb b2 (by simp)
    have h3 : b3 < 256 := hb b3 (by simp)
    have e1 : b64Val (b64Char (b1 / 4)) = b1 / 4 := b64Val_b64Char ⟨b1 / 4, by omega⟩
    have e2 : b64Val (b64Char (b1 % 4 * 16 + b2 / 16)) = b1 % 4 * 16 + b2 / 16 :=
      b64Val_b64Char ⟨b1 % 4 * 16 + b2 / 16, by omega⟩
    have e3 : b64Val (b64Char (b2 % 16 * 4 + b3 / 64)) = b2 % 16 * 4 + b3 / 64 :=
      b64Val_b64Char ⟨b2 % 16 * 4 + b3 / 64, by omega⟩
    have e4 : b64Val (b64Char (b3 % 64)) = b3 % 64 := b64Val_b64Char ⟨b3 % 64, by omega⟩
    have n3 : b64Char (b2 % 16 * 4 + b3 / 64) ≠ '=' :=
      b64Char_ne_pad ⟨b2 % 16 * 4 + b3 / 64, by omega⟩
    have n4 : b64Char (b3 % 64) ≠ '=' := b64Char_ne_pad ⟨b3 % 64, by omega⟩
    have ih2 := ih (fun b hmem => hb b (by simp [hmem]))
    simp only [base64Encode, base64Decode, if_neg n3, if_neg n4, ih2]
    simp only [e1, e2, e3, e4, List.cons.injEq, and_true]
    refine ⟨by omega, by omega, by omega⟩

theorem png_parts_concat :
    "data:".toList ++ "image/png".toList ++ ";base64,".toList =
      "data:image/png;base64,".toList := by rfl

theorem jpeg_parts_concat :
    "data:".toList ++ "image/jpeg".toList ++ ";base64,".toList =
      "data:image/jpeg;base64,".toList := by rfl

/-! ## Claims C7, C8, C10: the raster wrappers -/

/-- C7: whenever `image_to_png_data_uri` (resp. `image_to_jpeg_data_uri`)
returns successfully, the returned string is exactly
`data:image/png;base64,` (resp. `data:image/jpeg;base64,`) followed by the
padded, unwrapped standard base64 encoding of the bytes the underlying
encoder produced for the given pixel buffer. -/
theorem C7_success_format {ε : Type} (pngEncode : ImageBuf → Except ε (List Nat))
    (jpegEncode : Nat → ImageBuf → Except ε (List Nat)) (img : ImageBuf) (q : Nat)
    (bufP bufJ : List Nat) (hP : pngEncode img = Except.ok bufP)
    (hJ : jpegEncode q img = Except.ok bufJ) :
    image_to_png_data_uri pngEncode img =
      Except.ok ("data:image/png;base64,".toList ++ base64Encode bufP) ∧
    image_to_jpeg_data_uri jpegEncode img q =
      Except.ok ("data:image/jpeg;base64,".toList ++ base64Encode bufJ) := by
  constructor
  · simp only [image_to_png_data_uri, hP]
    rw [png_parts_concat]
  · simp only [image_to_jpeg_data_uri, hJ]
    rw [jpeg_parts_concat]

/-- Witness for C7 at a concrete pixel buffer and concrete encoders. -/
theorem C7_success_format_witness :
    image_to_png_data_uri (ε := String) (fun _ => Except.ok [0, 255, 17])
        (ImageBuf.mk 1 1 [0, 255, 17] 0) =
      Except.ok ("data:image/png;base64,".toList ++ base64Encode [0, 255, 17]) ∧
    image_to_jpeg_data_uri (ε := String) (fun _ _ => Except.ok [1, 2])
        (ImageBuf.mk 1 1 [0, 255, 17] 0) 80 =
      Except.ok ("data:image/jpeg;base64,".toList ++ base64Encode [1, 2]) :=
  C7_success_format _ _ _ 80 _ _ rfl rfl

/-- C8: when the underlying codec fails on a pixel buffer, both wrappers
return that encoder error itself as the failed result — no panic, no retry,
no URI string. -/
theorem C8_error_propagation {ε : Type} (pngEncode : ImageBuf → Except ε (List Nat))
    (jpegEncode : Nat → ImageBuf → Except ε (List Nat)) (img : ImageBuf) (q : Nat)
    (e₁ e₂ : ε) (hP : pngEncode img = Except.error e₁)
    (hJ : jpegEncode q img = Except.error e₂) :
    image_to_png_data_uri pngEncode img = Except.error e₁ ∧
    image_to_jpeg_data_uri jpegEncode img q = Except.error e₂ := by
  constructor
  · simp only [image_to_png_data_uri, hP]
  · simp only [image_to_jpeg_data_uri, hJ]

/-- Witness for C8: a codec rejecting a buffer whose dimensions do not
match its byte length has its error surfaced verbatim. -/
theorem C8_error_propagation_witness :
    image_to_png_data_uri (ε := String) (fun _ => Except.error "dimension mismatch")
        (ImageBuf.mk 2 2 [0] 0) =
      Except.error "dimension mismatch" ∧
    image_to_jpeg_data_uri (ε := String) (fun _ _ => Except.error "dimension mismatch")
        (ImageBuf.mk 2 2 [0] 0) 80 =
      Except.error "dimension mismatch" :=
  C8_error_propagation _ _ _ 80 _ _ rfl rfl

/-- C10: for every successful call of either raster wrapper, stripping the
`data:image/...;base64,` header and base64-decoding the remainder yields
exactly the byte buffer the underlying encoder wrote. -/
theorem C10_base64_lossless {ε : Type} (pngEncode : ImageBuf → Except ε (List Nat))
    (jpegEncode : Nat → ImageBuf → Except ε (List Nat)) (img : ImageBuf) (q : Nat)
    (bufP bufJ : List Nat) (hP : pngEncode img = Except.ok bufP)
    (hJ : jpegEncode q img = Except.ok bufJ)
    (hbP : ∀ b ∈ bufP, b < 256) (hbJ : ∀ b ∈ bufJ, b < 256) :
    (∃ t, image_to_png_data_uri pngEncode img = Except.ok t ∧
      base64Decode (t.drop "data:image/png;base64,".toList.length) = bufP) ∧
    (∃ t, image_to_jpeg_data_uri jpegEncode img q = Except.ok t ∧
      base64Decode (t.drop "data:image/jpeg;base64,".toList.length) = bufJ) := by
  constructor
  · refine ⟨"data:image/png;base64,".toList ++ base64Encode bufP, ?_, ?_⟩
    · simp only [image_to_png_data_uri, hP]
      rw [png_parts_concat]
    · rw [List.drop_left, base64_decode_encode bufP hbP]
  · refine ⟨"data:image/jpeg;base64,".toList ++ base64Encode bufJ, ?_, ?_⟩
    · simp only [image_to_jpeg_data_uri, hJ]
      rw [jpeg_parts_concat]
    · rw [List.drop_left, base64_decode_encode bufJ hbJ]

/-- Witness for C10 at concrete buffers. -/
theorem C10_base64_lossless_witness :
    (∃ t, image_to_png_data_uri (ε := String) (fun _ => Except.ok [77, 97, 110])
        (ImageBuf.mk 1 1 [77, 97, 110] 0) = Except.ok t ∧
      base64Decode (t.drop "data:image/png;base64,".toList.length) = [77, 97, 110]) ∧
    (∃ t, image_to_jpeg_data_uri (ε := String) (fun _ _ => Except.ok [1, 2, 255])
        (ImageBuf.mk 1 1 [77, 97, 110] 0) 80 = Except.ok t ∧
      base64Decode (t.drop "data:image/jpeg;base64,".toList.length) = [1, 2, 255]) :=
  C10_base64_lossless _ _ _ 80 _ _ rfl rfl (by decide) (by decide)

/-! ## Helper lemmas about characters and UTF-8 -/

theorem toNat_ofNat_of_lt {n : Nat} (h : n < 0xD800) : (Char.ofNat n).toNat = n := by
  have hv : Nat.isValidChar n := Or.inl h
  unfold Char.ofNat
  rw [dif_pos hv]
  rfl

theorem isAlnumByte_toNat (c : Char) : isAlnumByte c.toNat = isAsciiAlphanumeric c := by
  rw [Bool.eq_iff_iff]
  simp only [isAlnumByte, isAsciiAlphanumeric, Bool.or_eq_true, Bool.and_eq_true,
    decide_eq_true_eq]
  omega

theorem utf8EncodeNat_ascii {n : Nat} (h : n < 0x80) : utf8EncodeNat n = [n] := by
  simp [utf8EncodeNat, h]

theorem utf8EncodeNat_high {n : Nat} (h : 0x80 ≤ n) :
    ∀ b ∈ utf8EncodeNat n, 0x80 ≤ b := by
  intro b hm
  simp only [utf8EncodeNat, if_neg (by omega : ¬ n < 0x80)] at hm
  by_cases h8 : n < 0x800
  · rw [if_pos h8] at hm
    simp only [List.mem_cons, List.not_mem_nil, or_false] at hm
    rcases hm with h1 | h1 <;> omega
  · rw [if_neg h8] at hm
    by_cases h16 : n < 0x10000
    · rw [if_pos h16] at hm
      simp only [List.mem_cons, List.not_mem_nil, or_false] at hm
      rcases hm with h1 | h1 | h1 <;> omega
    · rw [if_neg h16] at hm
      simp only [List.mem_cons, List.not_mem_nil, or_false] at hm
      rcases hm with h1 | h1 | h1 | h1 <;> omega

theorem isAlnumByte_eq_false_of_high {b : Nat} (h : 0x80 ≤ b) :
    isAlnumByte b = false := by
  rw [Bool.eq_false_iff]
  intro hcontra
  simp only [isAlnumByte, Bool.or_eq_true, Bool.and_eq_true, decide_eq_true_eq] at hcontra
  omega

theorem flatMap_congr_mem {α β : Type} (l : List α) (f g : α → List β)
    (h : ∀ a ∈ l, f a = g a) : l.flatMap f = l.flatMap g := by
  induction l with
  | nil => rfl
  | cons x xs ih =>
    rw [List.flatMap_cons, List.flatMap_cons, h x (by simp),
      ih fun a ha => h a (by simp [ha])]

/-! ## Claims C1-C4 -/

/-- C1: on the repository's reference input (the spec's round-trip
scenario), `svg_str_to_data_uri` returns exactly the reference output. -/
theorem C1_reference_roundtrip :
    svg_str_to_data_uri refInput.toList = some refOutput.toList := by rfl

/-- C2: the claim says the function is total, in particular on strings whose
first character is U+FEFF.  The code is not: on such strings
`trim_byte_order_mark` evaluates `&string[1..]`, and byte 1 lies inside the
three-byte UTF-8 encoding of U+FEFF, so the slice panics (`none`). -/
theorem C2_bom_first_input_panics :
    svg_str_to_data_uri (Char.ofNat 0xFEFF :: "<svg/>".toList) = none := by rfl

/-- C3: the claim says a leading U+FEFF is dropped and the pipeline then
behaves as on the remaining text, while an interior U+FEFF is
percent-encoded in place.  The code instead panics on a leading U+FEFF
(first conjunct), although the stripped input itself converts fine (second
conjunct) and an interior U+FEFF is indeed left in place and encoded as
`%EF%BB%BF` (third conjunct). -/
theorem C3_bom_strip_diverges :
    svg_str_to_data_uri (Char.ofNat 0xFEFF :: "<svg/>".toList) ≠
      svg_str_to_data_uri "<svg/>".toList ∧
    svg_str_to_data_uri "<svg/>".toList =
      some "data:image/svg+xml,%3Csvg%2F%3E".toList ∧
    svg_str_to_data_uri ('a' :: Char.ofNat 0xFEFF :: ['b']) =
      some "data:image/svg+xml,a%EF%BB%BFb".toList := by
  refine ⟨by decide, by rfl, by rfl⟩

/-- C4: the percent-encoding step leaves exactly the ASCII alphanumeric
characters of the normalized text unescaped and replaces every other
character by the uppercase `%XX` escapes of its UTF-8 bytes, each byte
escaped independently. -/
theorem C4_percent_encoding_table (s : List Char) :
    encode_uri_components s =
      s.flatMap fun c =>
        if isAsciiAlphanumeric c then [c]
        else (utf8EncodeNat c.toNat).flatMap percentEncodeByte := by
  unfold encode_uri_components
  rw [List.flatMap_assoc]
  apply flatMap_congr_mem
  intro c _
  by_cases halnum : isAsciiAlphanumeric c = true
  · have hn : c.toNat < 0x80 := by
      simp only [isAsciiAlphanumeric, Bool.or_eq_true, Bool.and_eq_true,
        decide_eq_true_eq] at halnum
      omega
    rw [utf8EncodeNat_ascii hn, if_pos halnum]
    rw [List.flatMap_cons, List.flatMap_nil, List.append_nil]
    rw [isAlnumByte_toNat c, if_pos halnum, Char.ofNat_toNat]
  · rw [if_neg halnum]
    rcases Nat.lt_or_ge c.toNat 0x80 with h80 | h80
    · rw [utf8EncodeNat_ascii h80]
      rw [List.flatMap_cons, List.flatMap_nil, List.append_nil,
        List.flatMap_cons, List.flatMap_nil, List.append_nil]
      rw [isAlnumByte_toNat c, if_neg halnum]
    · apply flatMap_congr_mem
      intro b hb
      rw [isAlnumByte_eq_false_of_high (utf8EncodeNat_high h80 b hb)]
      simp

/-! ## Helper lemmas about whitespace collapsing and trimming -/

theorem headNotWs_iff (l : List Char) :
    headNotWs l = true ↔ ∀ c, l.head? = some c → isWhitespace c = false := by
  cases l <;> simp [headNotWs]

theorem collapseAux_ws_true (c : Char) (rest : List Char)
    (hc : isWhitespace c = true) :
    collapseAux true (c :: rest) = collapseAux true rest := by
  simp [collapseAux, hc]

theorem collapseAux_ws_false (c : Char) (rest : List Char)
    (hc : isWhitespace c = true) :
    collapseAux false (c :: rest) = ' ' :: collapseAux true rest := by
  simp [collapseAux, hc]

theorem collapseAux_not_ws (c : Char) (rest : List Char)
    (hc : isWhitespace c = false) (b : Bool) :
    collapseAux b (c :: rest) = c :: collapseAux false rest := by
  simp [collapseAux, hc]

theorem collapseAux_append_of_last :
    ∀ (pre : List Char), (∀ c, pre.getLast? = some c → isWhitespace c = false) →
      pre ≠ [] → ∀ (b : Bool) (tail : List Char),
      collapseAux b (pre ++ tail) = collapseAux b pre ++ collapseAux false tail := by
  intro pre
  induction pre with
  | nil => intro _ h; cases h rfl
  | cons c pre' ih =>
    intro hlast hne b tail
    cases pre' with
    | nil =>
      have hc : isWhitespace c = false := hlast c rfl
      simp [collapseAux, hc]
    | cons d pre'' =>
      have hlast2 : ∀ x, (d :: pre'').getLast? = some x → isWhitespace x = false := by
        intro x hx
        exact hlast x (by rwa [List.getLast?_cons_cons])
      have ih2 := ih hlast2 (by simp)
      by_cases hc : isWhitespace c = true
      · cases b
        · rw [List.cons_append, collapseAux_ws_false c _ hc,
            collapseAux_ws_false c _ hc, ih2 true tail, List.cons_append]
        · rw [List.cons_append, collapseAux_ws_true c _ hc,
            collapseAux_ws_true c _ hc, ih2 true tail]
      · rw [Bool.not_eq_true] at hc
        rw [List.cons_append, collapseAux_not_ws c _ hc b,
          collapseAux_not_ws c _ hc b, ih2 false tail, List.cons_append]

theorem collapseAux_true_of_run :
    ∀ (run : List Char), (∀ c ∈ run, isWhitespace c = true) →
      ∀ (tail : List Char), headNotWs tail = true →
      collapseAux true (run ++ tail) = collapseAux false tail := by
  intro run
  induction run with
  | nil =>
    intro _ tail htail
    rw [List.nil_append]
    cases tail with
    | nil => rfl
    | cons d tail' =>
      have hd : isWhitespace d = false := by
        simpa [headNotWs] using htail
      rw [collapseAux_not_ws d tail' hd true, collapseAux_not_ws d tail' hd false]
  | cons r run' ih =>
    intro hws tail htail
    have hr : isWhitespace r = true := hws r (by simp)
    rw [List.cons_append, collapseAux_ws_true r _ hr]
    exact ih (fun c hc => hws c (by simp [hc])) tail htail

theorem collapseAux_false_of_run (run : List Char) (hne : run ≠ [])
    (hws : ∀ c ∈ run, isWhitespace c = true) (tail : List Char)
    (htail : headNotWs tail = true) :
    collapseAux false (run ++ tail) = ' ' :: collapseAux false tail := by
  cases run with
  | nil => cases hne rfl
  | cons r run' =>
    have hr : isWhitespace r = true := hws r (by simp)
    rw [List.cons_append, collapseAux_ws_false r _ hr]
    rw [collapseAux_true_of_run run' (fun c hc => hws c (by simp [hc])) tail htail]

theorem collapseAux_ne_nil :
    ∀ (t : List Char), (∀ c, t.getLast? = some c → isWhitespace c = false) →
      t ≠ [] → ∀ b, collapseAux b t ≠ [] := by
  intro t
  induction t with
  | nil => intro _ h; cases h rfl
  | cons c t' ih =>
    intro hlast _ b
    cases t' with
    | nil =>
      have hc : isWhitespace c = false := hlast c rfl
      rw [collapseAux_not_ws c [] hc b]
      simp
    | cons d t'' =>
      have hlast2 : ∀ x, (d :: t'').getLast? = some x → isWhitespace x = false := by
        intro x hx
        exact hlast x (by rwa [List.getLast?_cons_cons])
      by_cases hc : isWhitespace c = true
      · cases b
        · rw [collapseAux_ws_false c _ hc]
          simp
        · rw [collapseAux_ws_true c _ hc]
          exact ih hlast2 (by simp) true
      · rw [Bool.not_eq_true] at hc
        rw [collapseAux_not_ws c _ hc b]
        simp

theorem collapseAux_getLast :
    ∀ (t : List Char), (∀ c, t.getLast? = some c → isWhitespace c = false) →
      ∀ b, (collapseAux b t).getLast? = t.getLast? := by
  intro t
  induction t with
  | nil => intro _ b; rfl
  | cons c t' ih =>
    intro hlast b
    cases t' with
    | nil =>
      have hc : isWhitespace c = false := hlast c rfl
      rw [collapseAux_not_ws c [] hc b]
      rfl
    | cons d t'' =>
      have hlast2 : ∀ x, (d :: t'').getLast? = some x → isWhitespace x = false := by
        intro x hx
        exact hlast x (by rwa [List.getLast?_cons_cons])
      have hne : ∀ b', collapseAux b' (d :: t'') ≠ [] :=
        collapseAux_ne_nil (d :: t'') hlast2 (by simp)
      by_cases hc : isWhitespace c = true
      · cases b
        · rw [collapseAux_ws_false c _ hc]
          obtain ⟨x, xs, hx⟩ := List.exists_cons_of_ne_nil (hne true)
          rw [hx, List.getLast?_cons_cons, ← hx, ih hlast2 true,
            List.getLast?_cons_cons]
        · rw [collapseAux_ws_true c _ hc, ih hlast2 true, List.getLast?_cons_cons]
      · rw [Bool.not_eq_true] at hc
        rw [collapseAux_not_ws c _ hc b]
        obtain ⟨x, xs, hx⟩ := List.exists_cons_of_ne_nil (hne false)
        rw [hx, List.getLast?_cons_cons, ← hx, ih hlast2 false,
          List.getLast?_cons_cons]

theorem collapseAux_true_head :
    ∀ (t : List Char) (c : Char), (collapseAux true t).head? = some c →
      isWhitespace c = false := by
  intro t
  induction t with
  | nil => intro c h; cases h
  | cons d t' ih =>
    intro c h
    by_cases hd : isWhitespace d = true
    · rw [collapseAux_ws_true d t' hd] at h
      exact ih c h
    · rw [Bool.not_eq_true] at hd
      rw [collapseAux_not_ws d t' hd true, List.head?_cons] at h
      cases h
      exact hd

theorem collapsedB_collapseAux :
    ∀ (t : List Char) (b : Bool), collapsedB (collapseAux b t) = true := by
  intro t
  induction t with
  | nil => intro b; rfl
  | cons c t' ih =>
    intro b
    by_cases hc : isWhitespace c = true
    · cases b
      · rw [collapseAux_ws_false c t' hc]
        have hh : headNotWs (collapseAux true t') = true := by
          rw [headNotWs_iff]
          exact collapseAux_true_head t'
        simp [collapsedB, hh, ih true]
      · rw [collapseAux_ws_true c t' hc]
        exact ih true
    · rw [Bool.not_eq_true] at hc
      rw [collapseAux_not_ws c t' hc b]
      simp [collapsedB, hc, ih false]

theorem collapseAux_of_collapsedB :
    ∀ (t : List Char), collapsedB t = true →
      collapseAux false t = t ∧
        ((∀ c, t.head? = some c → isWhitespace c = false) →
          collapseAux true t = t) := by
  intro t
  induction t with
  | nil => intro _; exact ⟨rfl, fun _ => rfl⟩
  | cons c t' ih =>
    intro hcol
    by_cases hc : isWhitespace c = true
    · have hsp : c = ' ' ∧ headNotWs t' = true ∧ collapsedB t' = true := by
        simp only [collapsedB, hc, Bool.not_true, Bool.false_or, Bool.and_eq_true,
          beq_iff_eq] at hcol
        exact ⟨hcol.1.1, hcol.1.2, hcol.2⟩
      obtain ⟨hc', hh, hcol'⟩ := hsp
      have ihx := ih hcol'
      have htrue : collapseAux true t' = t' :=
        ihx.2 (by rwa [headNotWs_iff] at hh)
      constructor
      · rw [collapseAux_ws_false c t' hc, htrue, hc']
      · intro hhead
        have hx := hhead c (by rfl)
        rw [hx] at hc
        cases hc
    · rw [Bool.not_eq_true] at hc
      have hcol' : collapsedB t' = true := by
        simp only [collapsedB, hc, Bool.and_eq_true] at hcol
        exact hcol.2
      have ihx := ih hcol'
      constructor
      · rw [collapseAux_not_ws c t' hc false, ihx.1]
      · intro _
        rw [collapseAux_not_ws c t' hc true, ihx.1]

theorem head_dropWhile_not_ws :
    ∀ (l : List Char) (c : Char), (l.dropWhile isWhitespace).head? = some c →
      isWhitespace c = false := by
  intro l
  induction l with
  | nil => intro c h; cases h
  | cons d l' ih =>
    intro c h
    by_cases hd : isWhitespace d = true
    · rw [List.dropWhile_cons, if_pos hd] at h
      exact ih c h
    · rw [Bool.not_eq_true] at hd
      rw [List.dropWhile_cons, if_neg (by simp [hd])] at h
      simp only [List.head?_cons, Option.some.injEq] at h
      rwa [← h]

theorem getLast_dropWhile_of_ne_nil :
    ∀ (l : List Char), l.dropWhile isWhitespace ≠ [] →
      (l.dropWhile isWhitespace).getLast? = l.getLast? := by
  intro l
  induction l with
  | nil => intro h; cases h rfl
  | cons d l' ih =>
    intro hne
    by_cases hd : isWhitespace d = true
    · rw [List.dropWhile_cons, if_pos hd] at hne ⊢
      have hl' : l' ≠ [] := by
        intro hx
        rw [hx] at hne
        exact hne (by simp)
      obtain ⟨x, xs, hx⟩ := List.exists_cons_of_ne_nil hl'
      rw [ih hne, hx, List.getLast?_cons_cons]
    · rw [Bool.not_eq_true] at hd
      rw [List.dropWhile_cons, if_neg (by simp [hd])]

theorem trimRust_head_not_ws (s : List Char) :
    ∀ c, (trimRust s).head? = some c → isWhitespace c = false := by
  intro c hc
  unfold trimRust at hc
  rw [List.head?_reverse] at hc
  by_cases hne :
      (s.dropWhile isWhitespace).reverse.dropWhile isWhitespace = ([] : List Char)
  · rw [hne] at hc
    cases hc
  · rw [getLast_dropWhile_of_ne_nil _ hne, List.getLast?_reverse] at hc
    exact head_dropWhile_not_ws _ c hc

theorem trimRust_getLast_not_ws (s : List Char) :
    ∀ c, (trimRust s).getLast? = some c → isWhitespace c = false := by
  intro c hc
  unfold trimRust at hc
  rw [List.getLast?_reverse] at hc
  exact head_dropWhile_not_ws _ c hc

theorem dropWhile_eq_self_of_head (l : List Char)
    (h : ∀ c, l.head? = some c → isWhitespace c = false) :
    l.dropWhile isWhitespace = l := by
  cases l with
  | nil => rfl
  | cons c l' =>
    rw [List.dropWhile_cons, if_neg (by simp [h c rfl])]

theorem trimRust_eq_self (u : List Char)
    (h1 : ∀ c, u.head? = some c → isWhitespace c = false)
    (h2 : ∀ c, u.getLast? = some c → isWhitespace c = false) :
    trimRust u = u := by
  unfold trimRust
  rw [dropWhile_eq_self_of_head u h1,
    dropWhile_eq_self_of_head u.reverse (by
      intro c hc
      rw [List.head?_reverse] at hc
      exact h2 c hc),
    List.reverse_reverse]

/-! ## Claims C5 and C6 -/

/-- C5: the whitespace-collapsing step replaces every maximal run of one or
more whitespace characters by exactly one ASCII space: around a nonempty
all-whitespace run whose neighbours (last of `pre`, head of `post`) are not
whitespace, the result is the collapse of `pre`, one space, and the collapse
of `post`. -/
theorem C5_collapse_maximal_run (pre run post : List Char) (hne : run ≠ [])
    (hws : ∀ c ∈ run, isWhitespace c = true)
    (hpre : headNotWs pre.reverse = true) (hpost : headNotWs post = true) :
    collapse_whitespace (pre ++ run ++ post) =
      collapse_whitespace pre ++ ' ' :: collapse_whitespace post := by
  have hlast : ∀ c, pre.getLast? = some c → isWhitespace c = false := by
    intro c hc
    rw [headNotWs_iff] at hpre
    exact hpre c (by rwa [List.head?_reverse])
  by_cases hpre0 : pre = []
  · subst hpre0
    rw [List.nil_append]
    unfold collapse_whitespace
    rw [collapseAux_false_of_run run hne hws post hpost]
    rfl
  · unfold collapse_whitespace
    rw [List.append_assoc, collapseAux_append_of_last pre hlast hpre0 false,
      collapseAux_false_of_run run hne hws post hpost]

/-- Witness for C5: the spec's example run `"\n\n   \t"` between `a` and `b`
collapses to a single space. -/
theorem C5_collapse_maximal_run_witness :
    collapse_whitespace ("<c>a".toList ++ "\n\n   \t".toList ++ "b</c>".toList) =
      collapse_whitespace "<c>a".toList ++ ' ' :: collapse_whitespace "b</c>".toList :=
  C5_collapse_maximal_run _ _ _ (by decide) (by decide) (by decide) (by decide)

/-- C6: the trim-plus-collapse normalization used by `svg_str_to_data_uri`
is idempotent. -/
theorem C6_normalization_idempotent (s : List Char) :
    collapse_whitespace (trimRust (collapse_whitespace (trimRust s))) =
      collapse_whitespace (trimRust s) := by
  have hFl := trimRust_getLast_not_ws s
  have huh : ∀ c, (collapse_whitespace (trimRust s)).head? = some c →
      isWhitespace c = false := by
    unfold collapse_whitespace
    cases ht : trimRust s with
    | nil => intro c hc; cases hc
    | cons c t' =>
      have hc : isWhitespace c = false := trimRust_head_not_ws s c (by rw [ht]; rfl)
      intro d hd
      rw [collapseAux_not_ws c t' hc false, List.head?_cons] at hd
      cases hd
      exact hc
  have hul : ∀ c, (collapse_whitespace (trimRust s)).getLast? = some c →
      isWhitespace c = false := by
    intro c hc
    unfold collapse_whitespace at hc
    rw [collapseAux_getLast (trimRust s) hFl false] at hc
    exact hFl c hc
  rw [trimRust_eq_self _ huh hul]
  exact (collapseAux_of_collapsedB _ (collapsedB_collapseAux (trimRust s) false)).1

/-! ## Claim C9 -/

theorem isWhitespace_eq_true_iff (c : Char) :
    isWhitespace c = true ↔ (c.toNat = 0x09 ∨ c.toNat = 0x0A ∨ c.toNat = 0x0B ∨
      c.toNat = 0x0C ∨ c.toNat = 0x0D ∨ c.toNat = 0x20 ∨ c.toNat = 0x85 ∨
      c.toNat = 0xA0 ∨ c.toNat = 0x1680 ∨ (0x2000 ≤ c.toNat ∧ c.toNat ≤ 0x200A) ∨
      c.toNat = 0x2028 ∨ c.toNat = 0x2029 ∨ c.toNat = 0x202F ∨ c.toNat = 0x205F ∨
      c.toNat = 0x3000) := by
  simp [isWhitespace, Bool.or_eq_true, Bool.and_eq_true, beq_iff_eq,
    decide_eq_true_eq, or_assoc]

theorem isUpperHexDigit_hexDigitUpper (n : Nat) :
    isUpperHexDigit (hexDigitUpper n) = true := by
  rcases Nat.lt_or_ge n 16 with h | h
  · interval_cases n <;> decide
  · unfold hexDigitUpper
    rw [List.getD_eq_default _ _
      (by rw [show ("0123456789ABCDEF".toList).length = 16 from rfl]; omega)]
    decide

theorem hexDigitUpper_ascii_not_ws (n : Nat) :
    (hexDigitUpper n).toNat < 128 ∧ isWhitespace (hexDigitUpper n) = false := by
  rcases Nat.lt_or_ge n 16 with h | h
  · interval_cases n <;> exact ⟨by decide, by decide⟩
  · unfold hexDigitUpper
    rw [List.getD_eq_default _ _
      (by rw [show ("0123456789ABCDEF".toList).length = 16 from rfl]; omega)]
    exact ⟨by decide, by decide⟩

theorem uriPayloadOk_percent (x y : Char) (l : List Char) :
    uriPayloadOk ('%' :: x :: y :: l) =
      (isUpperHexDigit x && isUpperHexDigit y && uriPayloadOk l) := by
  rw [uriPayloadOk, if_pos rfl, hexTail]

theorem uriPayloadOk_other (c : Char) (l : List Char) (h : ¬ c = '%') :
    uriPayloadOk (c :: l) = (isAsciiAlphanumeric c && uriPayloadOk l) := by
  rw [uriPayloadOk, if_neg h]

theorem uriPayloadOk_pct_append (b : Nat) (l : List Char)
    (hl : uriPayloadOk l = true) :
    uriPayloadOk (percentEncodeByte b ++ l) = true := by
  rw [show percentEncodeByte b ++ l =
    '%' :: hexDigitUpper (b / 16) :: hexDigitUpper (b % 16) :: l from rfl]
  rw [uriPayloadOk_percent, isUpperHexDigit_hexDigitUpper,
    isUpperHexDigit_hexDigitUpper, hl]
  rfl

theorem uriPayloadOk_enc (bytes : List Nat) :
    uriPayloadOk (bytes.flatMap fun b =>
      if isAlnumByte b then [Char.ofNat b] else percentEncodeByte b) = true := by
  induction bytes with
  | nil => rfl
  | cons b bs ih =>
    rw [List.flatMap_cons]
    by_cases hb : isAlnumByte b = true
    · rw [if_pos hb, List.singleton_append]
      have hrange : b < 0xD800 := by
        simp only [isAlnumByte, Bool.or_eq_true, Bool.and_eq_true,
          decide_eq_true_eq] at hb
        omega
      have ht : (Char.ofNat b).toNat = b := toNat_ofNat_of_lt hrange
      have hne : ¬ Char.ofNat b = '%' := by
        intro hx
        have hb37 : b = 37 := by
          calc b = (Char.ofNat b).toNat := ht.symm
          _ = ('%').toNat := by rw [hx]
          _ = 37 := rfl
        simp only [isAlnumByte, Bool.or_eq_true, Bool.and_eq_true,
          decide_eq_true_eq] at hb
        omega
      rw [uriPayloadOk_other _ _ hne, ← isAlnumByte_toNat, ht, hb, ih]
      rfl
    · rw [if_neg hb]
      exact uriPayloadOk_pct_append b _ ih

theorem enc_chars_ascii (bytes : List Nat) :
    ∀ c ∈ (bytes.flatMap fun b =>
      if isAlnumByte b then [Char.ofNat b] else percentEncodeByte b),
      c.toNat < 128 ∧ isWhitespace c = false := by
  induction bytes with
  | nil => intro c hc; cases hc
  | cons b bs ih =>
    intro c hc
    rw [List.flatMap_cons, List.mem_append] at hc
    rcases hc with hc | hc
    · by_cases hb : isAlnumByte b = true
      · rw [if_pos hb, List.mem_singleton] at hc
        subst hc
        simp only [isAlnumByte, Bool.or_eq_true, Bool.and_eq_true,
          decide_eq_true_eq] at hb
        have ht : (Char.ofNat b).toNat = b := toNat_ofNat_of_lt (by omega)
        constructor
        · rw [ht]; omega
        · rw [Bool.eq_false_iff]
          intro hw
          rw [isWhitespace_eq_true_iff, ht] at hw
          omega
      · rw [if_neg hb] at hc
        simp only [percentEncodeByte, List.mem_cons, List.not_mem_nil,
          or_false] at hc
        rcases hc with hc | hc | hc
        · subst hc; exact ⟨by decide, by decide⟩
        · subst hc; exact hexDigitUpper_ascii_not_ws _
        · subst hc; exact hexDigitUpper_ascii_not_ws _
    · exact ih c hc

/-- C9: whenever `svg_str_to_data_uri` returns, the result is the literal
`data:image/svg+xml,` header followed only by ASCII alphanumerics and
`%XX` escapes with uppercase hex digits; in particular the whole output has
no whitespace and no non-ASCII character. -/
theorem C9_output_grammar (s t : List Char) (h : svg_str_to_data_uri s = some t) :
    (∃ p, t = "data:image/svg+xml,".toList ++ p ∧ uriPayloadOk p = true) ∧
    ∀ c ∈ t, c.toNat < 128 ∧ isWhitespace c = false := by
  unfold svg_str_to_data_uri at h
  cases htm : trim_byte_order_mark s with
  | none => rw [htm] at h; cases h
  | some u =>
    rw [htm, Option.map_some', Option.some.injEq] at h
    subst h
    refine ⟨⟨encode_uri_components (collapse_whitespace (trimRust u)), rfl, ?_⟩, ?_⟩
    · unfold encode_uri_components
      exact uriPayloadOk_enc _
    · intro c hc
      rw [List.mem_append] at hc
      rcases hc with hc | hc
      · have hhdr : ∀ c ∈ "data:image/svg+xml,".toList,
            c.toNat < 128 ∧ isWhitespace c = false := by decide
        exact hhdr c hc
      · unfold encode_uri_components at hc
        exact enc_chars_ascii _ c hc

/-- Witness for C9 at the concrete input `<svg/>`. -/
theorem C9_output_grammar_witness :
    (∃ p, "data:image/svg+xml,%3Csvg%2F%3E".toList =
        "data:image/svg+xml,".toList ++ p ∧ uriPayloadOk p = true) ∧
    ∀ c ∈ "data:image/svg+xml,%3Csvg%2F%3E".toList,
      c.toNat < 128 ∧ isWhitespace c = false :=
  C9_output_grammar "<svg/>".toList _ (by rfl)

end DataUriUtils
